import Mathlib

/-!
Verification of the encryption core of the chatter-safe-zone repository.

Bytes are modelled as `Nat` values, with `< 256` stated explicitly where a
JavaScript `Uint8Array` guarantees it; JS strings that carry binary data are
modelled as `List Char` / `List Nat`.  Platform primitives (WebCrypto, the
relational store) are external collaborators: they are modelled at the
fidelity each claim needs, and every such modelling choice is documented on
the definition it concerns.
-/

namespace Chatter

namespace Server

/-! ### Hex codec (supabase/functions/encryption/index.ts)

`uint8ArrayToHex` maps each byte through `b.toString(16).padStart(2, "0")`;
`hexToUint8Array` allocates `new Uint8Array(hex.length / 2)` and fills it
with `parseInt(hex.substr(i, 2), 16)` for even `i`.

JavaScript semantics captured by the model (ECMAScript):
* `parseInt(s, 16)` parses the longest valid hex-digit prefix (`0-9a-fA-F`);
  it yields `NaN` when the first character is not a hex digit.
* Storing a value into a `Uint8Array` element applies `ToUint8`: `NaN`
  becomes `0`, any other number is truncated and reduced mod 256.
* `new Uint8Array(len)` applies `ToIndex`, which truncates a fractional
  length (so an odd-length input yields an array of `floor(n / 2)` bytes)
  and does not throw for any length that arises here.
* An assignment to an out-of-range index of a typed array is a silent no-op
  (integer-indexed exotic object `[[Set]]` never throws), so the lone
  trailing character of an odd-length input is parsed and then discarded.
Consequently `hexToUint8Array` is a total function: no input makes it throw.
-/

/-- Model of `n.toString(16)` for one hex digit (`0..15`). -/
def hexDigitChar (n : Nat) : Char :=
  if n < 10 then Char.ofNat (48 + n) else Char.ofNat (87 + n)

/-- Model of `b.toString(16).padStart(2, "0")` for a byte `b < 256`. -/
def byteToHexChars (b : Nat) : List Char :=
  if b < 16 then ['0', hexDigitChar b]
  else [hexDigitChar (b / 16), hexDigitChar (b % 16)]

/-- `uint8ArrayToHex` from index.ts: concatenation of two-digit chunks. -/
def uint8ArrayToHex (bs : List Nat) : List Char :=
  (bs.map byteToHexChars).flatten

/-- Value of one hex digit character, `none` when the character is not a
hex digit (the cases `parseInt` accepts: `0-9`, `a-f`, `A-F`). -/
def hexDigitVal (c : Char) : Option Nat :=
  if 48 ≤ c.toNat ∧ c.toNat ≤ 57 then some (c.toNat - 48)
  else if 97 ≤ c.toNat ∧ c.toNat ≤ 102 then some (c.toNat - 87)
  else if 65 ≤ c.toNat ∧ c.toNat ≤ 70 then some (c.toNat - 55)
  else none

/-- Accumulating parse of the remaining hex digits (stops at the first
non-digit, as `parseInt` does). -/
def parseIntHexGo (acc : Nat) : List Char → Nat
  | [] => acc
  | c :: rest =>
    match hexDigitVal c with
    | none => acc
    | some d => parseIntHexGo (16 * acc + d) rest

/-- Model of `parseInt(s, 16)`: `none` models `NaN` (empty string or a
string whose first character is not a hex digit). -/
def parseIntHex : List Char → Option Nat
  | [] => none
  | c :: rest =>
    match hexDigitVal c with
    | none => none
    | some d => some (parseIntHexGo d rest)

/-- Byte stored for one two-character chunk: `ToUint8(parseInt(chunk, 16))`,
with `NaN` coerced to `0`. -/
def hexPairByte (c1 c2 : Char) : Nat :=
  (parseIntHex [c1, c2]).getD 0 % 256

/-- `hexToUint8Array` from index.ts (total; see the module comment for the
JS semantics that make the original total as well). -/
def hexToUint8Array : List Char → List Nat
  | c1 :: c2 :: rest => hexPairByte c1 c2 :: hexToUint8Array rest
  | _ => []

theorem hexToUint8Array_length : ∀ cs : List Char,
    (hexToUint8Array cs).length = cs.length / 2
  | [] => by simp [hexToUint8Array]
  | [_] => by simp [hexToUint8Array]
  | c1 :: c2 :: rest => by
    simp [hexToUint8Array, hexToUint8Array_length rest]
    omega

theorem byteToHexChars_eq (b : Nat) :
    byteToHexChars b = [hexDigitChar (b / 16), hexDigitChar (b % 16)] := by
  unfold byteToHexChars
  split
  · have hdiv : b / 16 = 0 := Nat.div_eq_of_lt (by omega)
    have hmod : b % 16 = b := Nat.mod_eq_of_lt (by omega)
    rw [hdiv, hmod]
    rfl
  · rfl

set_option maxRecDepth 8192 in
/-- Parsing the two-digit hex rendering of a byte recovers the byte. -/
theorem hexPairByte_roundtrip :
    ∀ b, b < 256 → hexPairByte (hexDigitChar (b / 16)) (hexDigitChar (b % 16)) = b := by
  decide

/-- Hex round-trip: decoding the hex encoding of a byte array recovers it. -/
theorem hexToUint8Array_uint8ArrayToHex (bs : List Nat) (h : ∀ b ∈ bs, b < 256) :
    hexToUint8Array (uint8ArrayToHex bs) = bs := by
  induction bs with
  | nil => rfl
  | cons b rest ih =>
    have hb : b < 256 := h b (List.mem_cons_self b rest)
    have hrest : ∀ x ∈ rest, x < 256 := fun x hx => h x (List.mem_cons_of_mem b hx)
    have hjoin : uint8ArrayToHex (b :: rest) = byteToHexChars b ++ uint8ArrayToHex rest := by
      simp [uint8ArrayToHex]
    rw [hjoin, byteToHexChars_eq]
    show hexPairByte (hexDigitChar (b / 16)) (hexDigitChar (b % 16)) ::
        hexToUint8Array (uint8ArrayToHex rest) = b :: rest
    rw [hexPairByte_roundtrip b hb, ih hrest]

theorem uint8ArrayToHex_length (bs : List Nat) :
    (uint8ArrayToHex bs).length = 2 * bs.length := by
  induction bs with
  | nil => rfl
  | cons b rest ih =>
    have hjoin : uint8ArrayToHex (b :: rest) = byteToHexChars b ++ uint8ArrayToHex rest := by
      simp [uint8ArrayToHex]
    rw [hjoin, List.length_append, byteToHexChars_eq, ih]
    simp
    omega

/-! ### Base64 decoding (`base64ToUint8Array`, index.ts lines 53-62)

`atob` throws on characters outside the base64 alphabet and on a length
that is 1 mod 4 (after stripping at most two trailing `=`); otherwise it
decodes 6-bit groups into bytes. -/

/-- Value of one base64 alphabet character. -/
def base64CharVal (c : Char) : Option Nat :=
  if 65 ≤ c.toNat ∧ c.toNat ≤ 90 then some (c.toNat - 65)
  else if 97 ≤ c.toNat ∧ c.toNat ≤ 122 then some (c.toNat - 71)
  else if 48 ≤ c.toNat ∧ c.toNat ≤ 57 then some (c.toNat + 4)
  else if c.toNat = 43 then some 62
  else if c.toNat = 47 then some 63
  else none

/-- Decode a list of 6-bit values into bytes (4 values to 3 bytes). -/
def base64Groups : List Nat → List Nat
  | a :: b :: c :: d :: rest =>
    (a * 4 + b / 16) % 256 :: ((b % 16) * 16 + c / 4) % 256 ::
      ((c % 4) * 64 + d) % 256 :: base64Groups rest
  | [a, b, c] => [(a * 4 + b / 16) % 256, ((b % 16) * 16 + c / 4) % 256]
  | [a, b] => [(a * 4 + b / 16) % 256]
  | _ => []

def invalidB64Msg : String := "InvalidCharacterError"

/-- Model of `atob` composed with the char-code loop of
`base64ToUint8Array`: fails on invalid characters or an invalid length. -/
def base64ToUint8Array (s : List Char) : Except String (List Nat) :=
  let body := (s.reverse.dropWhile (· = '=')).reverse
  let pad := s.length - body.length
  if pad > 2 ∨ (pad > 0 ∧ s.length % 4 ≠ 0) ∨ body.length % 4 = 1 then
    Except.error invalidB64Msg
  else
    match body.mapM base64CharVal with
    | none => Except.error invalidB64Msg
    | some vals => Except.ok (base64Groups vals)

/-! ### AES-GCM model (WebCrypto `crypto.subtle`, an external platform
primitive)

The service uses `crypto.subtle.encrypt/decrypt` with AES-GCM.  GCM is
counter mode plus an authentication tag appended to the ciphertext; the
plaintext is XORed with a keystream of blocks produced by the AES-256
block permutation, and decryption re-derives the same keystream, so no
inverse cipher is involved.  The AES block permutation itself is kept as
a parameter `E` (key, 16-byte counter block to 16-byte keystream block);
every theorem below holds for an arbitrary `E`, which covers the real
AES-256 in particular.  The tag models GHASH's structure: a compression
of the whole ciphertext combined with an `E`-derived block, recomputed
and compared on decryption (`OperationError` on mismatch, as WebCrypto
throws). -/

/-- One AEAD block primitive type: key, counter block, keystream block. -/
abbrev BlockFn := List Nat → List Nat → List Nat

inductive CryptoError where
  | OperationError
  | DataError
  deriving DecidableEq, Repr

/-- 32-bit big-endian counter suffix of a GCM counter block. -/
def be32 (n : Nat) : List Nat :=
  [n / 2 ^ 24 % 256, n / 2 ^ 16 % 256, n / 2 ^ 8 % 256, n % 256]

/-- GCM counter block: the 12-byte IV with a 32-bit counter appended. -/
def counterBlock (iv : List Nat) (n : Nat) : List Nat := iv ++ be32 n

/-- Byte `i` of the GCM keystream (counter starts at 2 for the payload). -/
def ksByte (E : BlockFn) (key iv : List Nat) (i : Nat) : Nat :=
  (E key (counterBlock iv (2 + i / 16))).getD (i % 16) 0

/-- The first `n` bytes of the GCM keystream. -/
def keystream (E : BlockFn) (key iv : List Nat) (n : Nat) : List Nat :=
  (List.range n).map (ksByte E key iv)

/-- Bytewise XOR with the `Uint8Array` store coercion made explicit. -/
def xorBytes (a b : List Nat) : List Nat :=
  List.zipWith (fun x y => (x ^^^ y) % 256) a b

/-- Zero-pad a chunk to 16 bytes. -/
def pad16 (l : List Nat) : List Nat := l ++ List.replicate (16 - l.length) 0

/-- XOR-fold of the zero-padded 16-byte chunks of the ciphertext. -/
def foldBlocksGo (acc : List Nat) (l : List Nat) : List Nat :=
  match l with
  | [] => acc
  | x :: xs => foldBlocksGo (xorBytes acc (pad16 ((x :: xs).take 16))) ((x :: xs).drop 16)
  termination_by l.length
  decreasing_by simp; omega

/-- Authentication tag over the whole ciphertext. -/
def gcmTag (E : BlockFn) (key iv ct : List Nat) : List Nat :=
  xorBytes (E key (counterBlock iv 1)) (foldBlocksGo (List.replicate 16 0) ct)

/-- `crypto.subtle.encrypt` for AES-GCM: ciphertext with the tag appended. -/
def subtleEncryptGCM (E : BlockFn) (key iv pt : List Nat) : List Nat :=
  let ct := xorBytes pt (keystream E key iv pt.length)
  ct ++ gcmTag E key iv ct

/-- `crypto.subtle.decrypt` for AES-GCM: split off the 16-byte tag,
recompute it, and only on a match release the XOR-decrypted plaintext. -/
def subtleDecryptGCM (E : BlockFn) (key iv data : List Nat) :
    Except CryptoError (List Nat) :=
  if data.length < 16 then Except.error CryptoError.OperationError
  else
    let ct := data.take (data.length - 16)
    let tag := data.drop (data.length - 16)
    if tag = gcmTag E key iv ct then
      Except.ok (xorBytes ct (keystream E key iv ct.length))
    else Except.error CryptoError.OperationError

/-- `crypto.subtle.importKey("raw", key, AES-GCM, ...)`: rejects key
material whose length is not a legal AES key size. -/
def importKeyAES (key : List Nat) : Except CryptoError Unit :=
  if key.length = 16 ∨ key.length = 24 ∨ key.length = 32 then Except.ok ()
  else Except.error CryptoError.DataError

/-- `encryptMessage` (index.ts lines 64-87).  The plaintext string is
represented by its UTF-8 byte sequence (`TextEncoder` output); the fresh
`generateIV()` value is the `iv` parameter.  Returns hex-encoded
ciphertext and IV. -/
def encryptMessage (E : BlockFn) (message key iv : List Nat) :
    Except CryptoError (List Char × List Char) := do
  _ ← importKeyAES key
  let encrypted := subtleEncryptGCM E key iv message
  return (uint8ArrayToHex encrypted, uint8ArrayToHex iv)

/-- `decryptMessage` (index.ts lines 89-111): hex-decode the ciphertext,
key import, decrypt; the result is the UTF-8 byte sequence that
`TextDecoder` turns back into the string. -/
def decryptMessage (E : BlockFn) (encryptedHex : List Char) (iv key : List Nat) :
    Except CryptoError (List Nat) := do
  let encrypted := hexToUint8Array encryptedHex
  _ ← importKeyAES key
  subtleDecryptGCM E key iv encrypted

theorem xorBytes_length (a b : List Nat) :
    (xorBytes a b).length = min a.length b.length := by
  simp [xorBytes]

theorem xorBytes_lt (a b : List Nat) : ∀ x ∈ xorBytes a b, x < 256 := by
  intro x hx
  simp only [xorBytes] at hx
  rcases List.mem_iff_getElem.mp hx with ⟨i, hlt, hi⟩
  rw [List.getElem_zipWith] at hi
  omega

theorem keystream_length (E : BlockFn) (key iv : List Nat) (n : Nat) :
    (keystream E key iv n).length = n := by
  simp [keystream]

/-- XOR with the same keystream is an involution on byte lists. -/
theorem xorBytes_involution (k : List Nat) (hk : ∀ x ∈ k, x < 256) :
    ∀ p : List Nat, (∀ x ∈ p, x < 256) → p.length = k.length →
      xorBytes (xorBytes p k) k = p := by
  induction k with
  | nil =>
    intro p _ hlen
    rw [List.length_nil] at hlen
    rw [List.eq_nil_of_length_eq_zero hlen]
    rfl
  | cons b bs ih =>
    intro p hp hlen
    match p with
    | [] => simp at hlen
    | a :: as =>
      have ha : a < 256 := hp a (List.mem_cons_self a as)
      have hb : b < 256 := hk b (List.mem_cons_self b bs)
      have hxab : a ^^^ b < 256 := Nat.xor_lt_two_pow (n := 8) ha hb
      have step : ((a ^^^ b) % 256 ^^^ b) % 256 = a := by
        rw [Nat.mod_eq_of_lt hxab]
        rw [Nat.xor_assoc, Nat.xor_self, Nat.xor_zero]
        exact Nat.mod_eq_of_lt ha
      show ((a ^^^ b) % 256 ^^^ b) % 256 :: xorBytes (xorBytes as bs) bs = a :: as
    -- here
      rw [step, ih (fun x hx => hk x (List.mem_cons_of_mem b hx)) as
        (fun x hx => hp x (List.mem_cons_of_mem a hx)) (by simpa using hlen)]

theorem keystream_lt (E : BlockFn) (hElt : ∀ k b, ∀ x ∈ E k b, x < 256)
    (key iv : List Nat) (n : Nat) : ∀ x ∈ keystream E key iv n, x < 256 := by
  intro x hx
  simp only [keystream, List.mem_map] at hx
  obtain ⟨i, _, hi⟩ := hx
  subst hi
  unfold ksByte
  rcases h : (E key (counterBlock iv (2 + i / 16)))[i % 16]? with _ | v
  · simp [List.getD, h]
  · have hv : v ∈ E key (counterBlock iv (2 + i / 16)) := List.getElem?_mem h
    simpa [List.getD, h] using hElt _ _ v hv

theorem pad16_length (l : List Nat) (h : l.length ≤ 16) : (pad16 l).length = 16 := by
  simp [pad16]
  omega

theorem foldBlocksGo_length (acc l : List Nat) (h : acc.length = 16) :
    (foldBlocksGo acc l).length = 16 := by
  induction acc, l using foldBlocksGo.induct with
  | case1 acc => simpa [foldBlocksGo] using h
  | case2 acc x xs ih =>
    rw [foldBlocksGo]
    apply ih
    have hle : ((x :: xs).take 16).length ≤ 16 := by
      rw [List.length_take]
      omega
    rw [xorBytes_length, h, pad16_length _ hle]
    simp

theorem gcmTag_length (E : BlockFn) (hE16 : ∀ k b, (E k b).length = 16)
    (key iv ct : List Nat) : (gcmTag E key iv ct).length = 16 := by
  rw [gcmTag, xorBytes_length, hE16, foldBlocksGo_length _ _ (by simp)]
  rfl

/-- Decrypting a ciphertext that carries its own correctly computed tag
succeeds and XORs with the payload keystream. -/
theorem subtleDecryptGCM_append_tag (E : BlockFn) (key iv ct : List Nat)
    (htagl : (gcmTag E key iv ct).length = 16) :
    subtleDecryptGCM E key iv (ct ++ gcmTag E key iv ct) =
      Except.ok (xorBytes ct (keystream E key iv ct.length)) := by
  have hlen : (ct ++ gcmTag E key iv ct).length = ct.length + 16 := by
    simp [htagl]
  simp only [subtleDecryptGCM, hlen]
  rw [if_neg (by omega), Nat.add_sub_cancel, List.take_left, List.drop_left, if_pos rfl]

/-- GCM round-trip at the `crypto.subtle` level: decrypting an encryption
with the same key and IV recomputes the matching tag and recovers the
plaintext, for any block primitive `E`. -/
theorem subtleDecryptGCM_subtleEncryptGCM (E : BlockFn)
    (hE16 : ∀ k b, (E k b).length = 16) (hElt : ∀ k b, ∀ x ∈ E k b, x < 256)
    (key iv pt : List Nat) (hpt : ∀ b ∈ pt, b < 256) :
    subtleDecryptGCM E key iv (subtleEncryptGCM E key iv pt) = Except.ok pt := by
  have hksl : (keystream E key iv pt.length).length = pt.length := keystream_length ..
  have hctl : (xorBytes pt (keystream E key iv pt.length)).length = pt.length := by
    rw [xorBytes_length, hksl]
    simp
  have htagl : (gcmTag E key iv (xorBytes pt (keystream E key iv pt.length))).length = 16 :=
    gcmTag_length E hE16 ..
  have h1 : subtleEncryptGCM E key iv pt =
      xorBytes pt (keystream E key iv pt.length) ++
        gcmTag E key iv (xorBytes pt (keystream E key iv pt.length)) := rfl
  rw [h1, subtleDecryptGCM_append_tag E key iv _ htagl, hctl]
  rw [xorBytes_involution (keystream E key iv pt.length)
    (keystream_lt E hElt key iv pt.length) pt hpt hksl.symm]

/-- C1: for every plaintext (represented by its UTF-8 byte sequence) and
every 32-byte key, `decryptMessage` applied to the output of
`encryptMessage` -- with the returned IV (hex-decoded exactly as the
service itself does) and the same key -- returns exactly the plaintext.
Holds for every AES block primitive `E` producing 16-byte blocks. -/
theorem encryptMessage_decryptMessage_roundtrip
    (E : BlockFn) (hE16 : ∀ k b, (E k b).length = 16)
    (hElt : ∀ k b, ∀ x ∈ E k b, x < 256)
    (message key iv : List Nat)
    (hmsg : ∀ b ∈ message, b < 256) (hkey : key.length = 32)
    (hiv : ∀ b ∈ iv, b < 256) :
    ∃ encHex ivHex,
      encryptMessage E message key iv = Except.ok (encHex, ivHex) ∧
      decryptMessage E encHex (hexToUint8Array ivHex) key = Except.ok message := by
  have himport : importKeyAES key = Except.ok () := by
    rw [importKeyAES, if_pos (Or.inr (Or.inr hkey))]
  refine ⟨uint8ArrayToHex (subtleEncryptGCM E key iv message), uint8ArrayToHex iv, ?_, ?_⟩
  · rw [encryptMessage, himport]
    rfl
  · have hbytes : ∀ b ∈ subtleEncryptGCM E key iv message, b < 256 := by
      intro b hb
      rw [subtleEncryptGCM] at hb
      rcases List.mem_append.mp hb with h | h
      · exact xorBytes_lt _ _ b h
      · exact xorBytes_lt _ _ b h
    rw [decryptMessage, hexToUint8Array_uint8ArrayToHex _ hbytes,
      hexToUint8Array_uint8ArrayToHex _ hiv, himport]
    simpa using subtleDecryptGCM_subtleEncryptGCM E hE16 hElt key iv message hmsg

/-- A concrete block primitive used to instantiate witnesses. -/
def constBlock : BlockFn := fun _ _ => List.replicate 16 0

/-- Witness for the round-trip theorem at a concrete plaintext, key and IV. -/
theorem encryptMessage_decryptMessage_roundtrip_witness :
    ∃ encHex ivHex,
      encryptMessage constBlock [104, 105] (List.replicate 32 7) (List.replicate 12 1) =
        Except.ok (encHex, ivHex) ∧
      decryptMessage constBlock encHex (hexToUint8Array ivHex) (List.replicate 32 7) =
        Except.ok [104, 105] :=
  encryptMessage_decryptMessage_roundtrip constBlock (fun _ _ => rfl)
    (fun _ _ x hx => by
      have hx0 : x = 0 := List.eq_of_mem_replicate hx
      omega)
    [104, 105] (List.replicate 32 7) (List.replicate 12 1)
    (by decide) rfl
    (fun b hb => by
      have hb1 : b = 1 := List.eq_of_mem_replicate hb
      omega)

/-! ### The serve handler's encrypt/decrypt actions (index.ts lines 113-394)

The relational store is modelled by an explicit state; each action is a
function from the state (and the request fields, with the freshly drawn
random values as parameters) to a response, the successor state, and a
trace of the externally visible effects, in the order the handler
performs them. -/

/-- Stored session keys are kept as the character list of the
`session_key_encrypted` column. -/
structure DBState where
  conversations : List (String × List Char)
  participants : List (String × String)
  auditLogs : List (String × String)
  deriving DecidableEq, Repr

/-- Externally visible effects of one action, in execution order. -/
inductive Effect where
  | participantQuery (convId userId : String) (found : Bool)
  | convKeyRead (convId : String)
  | convKeyWrite (convId : String) (value : List Char)
  | sessionKeyUse (key : List Nat)
  | auditInsert (userId convId : String)
  | decryptOp
  deriving DecidableEq, Repr

def lookupConvKey (db : DBState) (convId : String) : Option (List Char) :=
  db.conversations.lookup convId

/-- `update ... eq("id", convId)`: rewrite the key of every row whose id
matches. -/
def setConvKey (db : DBState) (convId : String) (val : List Char) : DBState :=
  { db with conversations :=
      db.conversations.map (fun p => if p.1 = convId then (p.1, val) else p) }

def invalidKeyFormatMsg : String := "Invalid session key format"

def invalidIVFormatMsg : String := "Invalid IV format"

def invalidKeyLengthMsg (n : Nat) : String :=
  "Invalid key length: expected 32 bytes, got " ++ toString n ++ " bytes"

def accessCheckFailedMsg : String := "Access check failed"

def noSessionKeyMsg : String := "No session key found"

def convFetchFailedMsg : String := "Conversation fetch failed"

def cryptoOpFailedMsg : String := "OperationError"

/-- The `try` step around `hexToUint8Array`.  The tried computation is
total (see the hex module comment), so this attempt always succeeds —
which is exactly what makes the `catch` branches below dead code. -/
def hexDecodeAttempt (s : List Char) : Except String (List Nat) :=
  Except.ok (hexToUint8Array s)

/-- Session-key parsing on the encrypt path (index.ts lines 192-199):
`try` hex, `catch` base64, any base64 throw escaping to the outer
handler. -/
def parseStoredSessionKeyEncrypt (s : List Char) : Except String (List Nat) :=
  match hexDecodeAttempt s with
  | Except.ok k => Except.ok k
  | Except.error _ => base64ToUint8Array s

/-- Session-key parsing on the decrypt path (index.ts lines 319-334):
`try` hex, `catch` (`try` base64, `catch` throw "Invalid session key
format"). -/
def parseStoredSessionKeyDecrypt (s : List Char) : Except String (List Nat) :=
  match hexDecodeAttempt s with
  | Except.ok k => Except.ok k
  | Except.error _ =>
    match base64ToUint8Array s with
    | Except.ok k => Except.ok k
    | Except.error _ => Except.error invalidKeyFormatMsg

/-- IV parsing on the decrypt path (index.ts lines 341-356), same
hex-then-base64 structure. -/
def parseIVDecrypt (s : List Char) : Except String (List Nat) :=
  match hexDecodeAttempt s with
  | Except.ok k => Except.ok k
  | Except.error _ =>
    match base64ToUint8Array s with
    | Except.ok k => Except.ok k
    | Except.error _ => Except.error invalidIVFormatMsg

/-- Key acquisition step of the encrypt action (index.ts lines 182-209):
a non-empty stored value is parsed, otherwise the fresh key is generated
and persisted hex-encoded. -/
def encryptKeyStep (db : DBState) (convId : String) (freshKey : List Nat) :
    Except String (List Nat) × DBState × List Effect :=
  match lookupConvKey db convId with
  | some s =>
    if s = [] then
      (Except.ok freshKey, setConvKey db convId (uint8ArrayToHex freshKey),
        [Effect.convKeyRead convId, Effect.convKeyWrite convId (uint8ArrayToHex freshKey)])
    else (parseStoredSessionKeyEncrypt s, db, [Effect.convKeyRead convId])
  | none =>
    (Except.ok freshKey, setConvKey db convId (uint8ArrayToHex freshKey),
      [Effect.convKeyRead convId, Effect.convKeyWrite convId (uint8ArrayToHex freshKey)])

/-- The `encrypt` action (index.ts lines 181-225).  `freshKey` and `iv`
stand for the `generateKey()` / `generateIV()` random draws.  Responses
are `Except (status × message) body`; the audit insert is modelled as
always succeeding (it is fire-and-forget in the source). -/
def encryptAction (E : BlockFn) (db : DBState) (user convId : String)
    (message freshKey iv : List Nat) :
    Except (Nat × String) (List Char × List Char) × DBState × List Effect :=
  match encryptKeyStep db convId freshKey with
  | (Except.error e, db1, tr) => (Except.error (500, e), db1, tr)
  | (Except.ok sessionKey, db1, tr) =>
    match encryptMessage E message sessionKey iv with
    | Except.error _ =>
      (Except.error (500, cryptoOpFailedMsg), db1, tr ++ [Effect.sessionKeyUse sessionKey])
    | Except.ok r =>
      (Except.ok r, { db1 with auditLogs := db1.auditLogs ++ [(user, convId)] },
        tr ++ [Effect.sessionKeyUse sessionKey, Effect.auditInsert user convId])

/-- The `decrypt` action (index.ts lines 227-368): participant check,
conversation fetch, key parse, 32-byte length check, IV parse, decrypt. -/
def decryptAction (E : BlockFn) (db : DBState) (user convId : String)
    (encryptedMessage ivField : List Char) :
    Except (Nat × String) (List Nat) × List Effect :=
  if ¬ db.participants.contains (convId, user) then
    (Except.error (403, accessCheckFailedMsg), [Effect.participantQuery convId user false])
  else
    let tr1 := [Effect.participantQuery convId user true, Effect.convKeyRead convId]
    match lookupConvKey db convId with
    | none => (Except.error (404, convFetchFailedMsg), tr1)
    | some s =>
      if s = [] then (Except.error (404, noSessionKeyMsg), tr1)
      else
        match parseStoredSessionKeyDecrypt s with
        | Except.error e => (Except.error (500, e), tr1)
        | Except.ok sessionKey =>
          if sessionKey.length ≠ 32 then
            (Except.error (500, invalidKeyLengthMsg sessionKey.length), tr1)
          else
            match parseIVDecrypt ivField with
            | Except.error e => (Except.error (500, e), tr1)
            | Except.ok ivBytes =>
              match decryptMessage E encryptedMessage ivBytes sessionKey with
              | Except.error _ =>
                (Except.error (500, cryptoOpFailedMsg),
                  tr1 ++ [Effect.sessionKeyUse sessionKey, Effect.decryptOp])
              | Except.ok pt =>
                (Except.ok pt, tr1 ++ [Effect.sessionKeyUse sessionKey, Effect.decryptOp])

/-- C10: `hexToUint8Array` is total -- the hex attempt of both stored-key
parsers always succeeds with a byte array of length `floor(n / 2)` (odd
trailing characters dropped, unparseable pairs coerced to `0`, as for the
placeholder value "temp_key"), so the base64 fallback branches are
unreachable. -/
theorem hexToUint8Array_total_fallback_unreachable :
    (∀ s : List Char,
        parseStoredSessionKeyDecrypt s = Except.ok (hexToUint8Array s) ∧
        parseStoredSessionKeyEncrypt s = Except.ok (hexToUint8Array s) ∧
        (hexToUint8Array s).length = s.length / 2) ∧
    hexToUint8Array (("temp_key".toList)) = [0, 0, 0, 14] ∧
    ∀ c1 c2 : Char, hexDigitVal c1 = none → hexPairByte c1 c2 = 0 := by
  refine ⟨fun s => ⟨rfl, rfl, hexToUint8Array_length s⟩, by decide, ?_⟩
  intro c1 c2 h
  simp [hexPairByte, parseIntHex, h]

/-- Witness: a pair starting with the non-hex character of "temp_key"
is coerced to the byte 0. -/
theorem hexToUint8Array_total_fallback_unreachable_witness :
    hexPairByte 't' 'e' = 0 :=
  hexToUint8Array_total_fallback_unreachable.2.2 't' 'e' (by decide)

/-- The database state produced by `startChat` (useChatLogic.ts lines
149-161): a conversation created with `session_key_encrypted: "temp_key"`. -/
def tempKeyDB : DBState :=
  ⟨[("c1", ("temp_key".toList))], [("c1", "u1")], []⟩

/-- C7 evaluation at the failing input: "temp_key" is neither hex nor
base64, yet the decrypt-path parser accepts it via the (total) hex branch
and hands the garbage 4-byte key onward, so the action fails with the
invalid-length error, not the invalid-format one; the encrypt path
passes the same garbage key straight into `importKey`, which throws. -/
theorem sessionKeyParse_temp_key_behavior :
    parseStoredSessionKeyDecrypt (("temp_key".toList)) = Except.ok [0, 0, 0, 14] ∧
    base64ToUint8Array (("temp_key".toList)) = Except.error invalidB64Msg ∧
    (decryptAction constBlock tempKeyDB ("u1") ("c1") [] []).1 =
      Except.error (500, invalidKeyLengthMsg 4) ∧
    (encryptAction constBlock tempKeyDB ("u1") ("c1") [104] (List.replicate 32 0)
        (List.replicate 12 0)).1 = Except.error (500, cryptoOpFailedMsg) :=
  ⟨rfl, rfl, rfl, rfl⟩

/-- C6: the decrypt action checks conversation membership before touching
any key material: a non-participant caller gets the 403 access error and
the effect trace stops at the failed participant check (no key read, no
key use, no decryption); moreover every run's first effect is the
participant check. -/
theorem decryptAction_participant_check (E : BlockFn) (db : DBState)
    (user convId : String) (enc ivf : List Char)
    (h : ¬ db.participants.contains (convId, user)) :
    (decryptAction E db user convId enc ivf).1 = Except.error (403, accessCheckFailedMsg) ∧
    (decryptAction E db user convId enc ivf).2 = [Effect.participantQuery convId user false] ∧
    ∀ (E2 : BlockFn) (db2 : DBState) (u2 c2 : String) (e2 i2 : List Char),
      (decryptAction E2 db2 u2 c2 e2 i2).2.head? =
        some (Effect.participantQuery c2 u2 (db2.participants.contains (c2, u2))) := by
  refine ⟨?_, ?_, ?_⟩
  · unfold decryptAction
    rw [if_pos h]
  · unfold decryptAction
    rw [if_pos h]
  · intro E2 db2 u2 c2 e2 i2
    unfold decryptAction
    by_cases hc : db2.participants.contains (c2, u2)
    · rw [if_neg (not_not_intro hc), hc]
      rcases hl : lookupConvKey db2 c2 with _ | s
      · rfl
      · simp only [hl, parseStoredSessionKeyDecrypt, parseIVDecrypt, hexDecodeAttempt]
        by_cases hs : s = []
        · rw [if_pos hs]
          rfl
        · rw [if_neg hs]
          split
          · rfl
          · split <;> rfl
    · have hcf : db2.participants.contains (c2, u2) = false := by
        simpa using hc
      rw [if_pos hc, hcf]
      rfl

/-- Witness for the participant check: a caller absent from the
participants table is rejected. -/
theorem decryptAction_participant_check_witness :
    (decryptAction constBlock tempKeyDB ("intruder") ("c1") [] []).1 =
      Except.error (403, accessCheckFailedMsg) ∧
    (decryptAction constBlock tempKeyDB ("intruder") ("c1") [] []).2 =
      [Effect.participantQuery ("c1") ("intruder") false] :=
  ⟨(decryptAction_participant_check constBlock tempKeyDB ("intruder") ("c1") [] []
      (by decide)).1,
    (decryptAction_participant_check constBlock tempKeyDB ("intruder") ("c1") [] []
      (by decide)).2.1⟩

theorem lookup_map_set_ne (l : List (String × List Char)) (cid1 cid2 : String)
    (v : List Char) (h : cid2 ≠ cid1) :
    List.lookup cid2 (l.map (fun p => if p.1 = cid1 then (p.1, v) else p)) =
      List.lookup cid2 l := by
  induction l with
  | nil => rfl
  | cons p rest ih =>
    rcases p with ⟨k, w⟩
    rw [List.map_cons]
    dsimp only
    by_cases hp : k = cid1
    · subst hp
      rw [if_pos rfl]
      have hne : (cid2 == k) = false := beq_false_of_ne h
      simp [List.lookup, hne, ih]
    · rw [if_neg hp]
      cases hbeq : cid2 == k <;> simp [List.lookup, hbeq, ih]

theorem lookup_map_set_self (l : List (String × List Char)) (cid : String)
    (v s : List Char) (h : List.lookup cid l = some s) :
    List.lookup cid (l.map (fun p => if p.1 = cid then (p.1, v) else p)) = some v := by
  induction l with
  | nil => simp [List.lookup] at h
  | cons p rest ih =>
    rcases p with ⟨k, w⟩
    rw [List.map_cons]
    dsimp only
    by_cases hk : k = cid
    · subst hk
      rw [if_pos rfl]
      simp [List.lookup]
    · rw [if_neg hk]
      have hbeq : (cid == k) = false := beq_false_of_ne (fun he => hk he.symm)
      have h2 : List.lookup cid rest = some s := by
        simpa [List.lookup, hbeq] using h
      simp [List.lookup, hbeq, ih h2]

/-- A subsequent encrypt call on a conversation whose persisted key is the
hex encoding of a 32-byte key `k` succeeds using `k` itself, writes
nothing to the conversation table, and leaves it unchanged. -/
theorem encryptAction_reuse (E : BlockFn) (db : DBState) (u c : String)
    (m fk iv k : List Nat) (hl : lookupConvKey db c = some (uint8ArrayToHex k))
    (hk32 : k.length = 32) (hkb : ∀ b ∈ k, b < 256) :
    (encryptAction E db u c m fk iv).1 =
      Except.ok (uint8ArrayToHex (subtleEncryptGCM E k iv m), uint8ArrayToHex iv) ∧
    (encryptAction E db u c m fk iv).2.1.conversations = db.conversations ∧
    (encryptAction E db u c m fk iv).2.2 =
      [Effect.convKeyRead c, Effect.sessionKeyUse k, Effect.auditInsert u c] := by
  have hne : uint8ArrayToHex k ≠ [] := by
    intro h0
    have hlen := uint8ArrayToHex_length k
    rw [h0, hk32] at hlen
    simp at hlen
  have hrt : hexToUint8Array (uint8ArrayToHex k) = k := hexToUint8Array_uint8ArrayToHex k hkb
  have himp : importKeyAES k = Except.ok () := by
    rw [importKeyAES, if_pos (Or.inr (Or.inr hk32))]
  have henc : encryptMessage E m k iv =
      Except.ok (uint8ArrayToHex (subtleEncryptGCM E k iv m), uint8ArrayToHex iv) := by
    rw [encryptMessage, himp]
    rfl
  have hstep : encryptKeyStep db c fk =
      (Except.ok k, db, [Effect.convKeyRead c]) := by
    unfold encryptKeyStep
    rw [hl]
    dsimp only
    rw [if_neg hne]
    simp only [parseStoredSessionKeyEncrypt, hexDecodeAttempt, hrt]
  unfold encryptAction
  rw [hstep]
  dsimp only
  rw [henc]
  exact ⟨rfl, rfl, rfl⟩

/-- The first encrypt call against an empty (or missing) persisted key
generates: it succeeds with the fresh 32-byte key and records its hex
encoding on the conversation row. -/
theorem encryptAction_generate (E : BlockFn) (db : DBState) (u c : String)
    (m fk iv : List Nat)
    (hl : lookupConvKey db c = some [] ∨ lookupConvKey db c = none)
    (hfk32 : fk.length = 32) :
    (encryptAction E db u c m fk iv).1 =
      Except.ok (uint8ArrayToHex (subtleEncryptGCM E fk iv m), uint8ArrayToHex iv) ∧
    (encryptAction E db u c m fk iv).2.1.conversations =
      (setConvKey db c (uint8ArrayToHex fk)).conversations ∧
    (encryptAction E db u c m fk iv).2.2 =
      [Effect.convKeyRead c, Effect.convKeyWrite c (uint8ArrayToHex fk),
        Effect.sessionKeyUse fk, Effect.auditInsert u c] := by
  have himp : importKeyAES fk = Except.ok () := by
    rw [importKeyAES, if_pos (Or.inr (Or.inr hfk32))]
  have henc : encryptMessage E m fk iv =
      Except.ok (uint8ArrayToHex (subtleEncryptGCM E fk iv m), uint8ArrayToHex iv) := by
    rw [encryptMessage, himp]
    rfl
  have hstep : encryptKeyStep db c fk =
      (Except.ok fk, setConvKey db c (uint8ArrayToHex fk),
        [Effect.convKeyRead c, Effect.convKeyWrite c (uint8ArrayToHex fk)]) := by
    unfold encryptKeyStep
    rcases hl with hl | hl
    · rw [hl]
      dsimp only
      rw [if_pos rfl]
    · rw [hl]
  unfold encryptAction
  rw [hstep]
  dsimp only
  rw [henc]
  exact ⟨rfl, rfl, rfl⟩

/-- Any encrypt call either leaves the conversation table unchanged or
writes it only when the targeted conversation key was empty or missing. -/
theorem encryptAction_conversations_cases (E : BlockFn) (db : DBState)
    (u c : String) (m fk iv : List Nat) :
    (encryptAction E db u c m fk iv).2.1.conversations = db.conversations ∨
    ((encryptAction E db u c m fk iv).2.1.conversations =
        (setConvKey db c (uint8ArrayToHex fk)).conversations ∧
      (lookupConvKey db c = some [] ∨ lookupConvKey db c = none)) := by
  rcases hl : lookupConvKey db c with _ | s
  · refine Or.inr ⟨?_, Or.inr rfl⟩
    have hstep : encryptKeyStep db c fk =
        (Except.ok fk, setConvKey db c (uint8ArrayToHex fk),
          [Effect.convKeyRead c, Effect.convKeyWrite c (uint8ArrayToHex fk)]) := by
      unfold encryptKeyStep
      rw [hl]
    unfold encryptAction
    rw [hstep]
    dsimp only
    split <;> rfl
  · by_cases hs : s = []
    · subst hs
      refine Or.inr ⟨?_, Or.inl rfl⟩
      have hstep : encryptKeyStep db c fk =
          (Except.ok fk, setConvKey db c (uint8ArrayToHex fk),
            [Effect.convKeyRead c, Effect.convKeyWrite c (uint8ArrayToHex fk)]) := by
        unfold encryptKeyStep
        rw [hl]
        dsimp only
        rw [if_pos rfl]
      unfold encryptAction
      rw [hstep]
      dsimp only
      split <;> rfl
    · refine Or.inl ?_
      have hstep : encryptKeyStep db c fk =
          (Except.ok (hexToUint8Array s), db, [Effect.convKeyRead c]) := by
        unfold encryptKeyStep
        rw [hl]
        dsimp only
        rw [if_neg hs]
        simp only [parseStoredSessionKeyEncrypt, hexDecodeAttempt]
      unfold encryptAction
      rw [hstep]
      dsimp only
      split <;> rfl

/-- An encrypt call never disturbs another conversation's non-empty key. -/
theorem encryptAction_preserves_key (E : BlockFn) (db : DBState) (u c2 : String)
    (m fk iv : List Nat) (c : String) (s : List Char)
    (hs : lookupConvKey db c = some s) (hne : s ≠ []) :
    lookupConvKey (encryptAction E db u c2 m fk iv).2.1 c = some s := by
  rcases encryptAction_conversations_cases E db u c2 m fk iv with h | ⟨h, hl⟩
  · unfold lookupConvKey at hs ⊢
    rw [h]
    exact hs
  · by_cases hcc : c = c2
    · subst hcc
      rcases hl with hl | hl <;> rw [hs] at hl
      · exact absurd (Option.some.inj hl) hne
      · exact absurd hl (by simp)
    · unfold lookupConvKey at hs ⊢
      rw [h]
      unfold setConvKey
      simp only
      rw [lookup_map_set_ne _ _ _ _ hcc]
      exact hs

/-- One request to the encrypt action, as drawn from a subsequent call
sequence. -/
structure EncCall where
  user : String
  convId : String
  message : List Nat
  freshKey : List Nat
  iv : List Nat

/-- Run a sequence of encrypt calls, threading the store state. -/
def runEncrypts (E : BlockFn) (db : DBState) : List EncCall → DBState
  | [] => db
  | c :: cs =>
    runEncrypts E (encryptAction E db c.user c.convId c.message c.freshKey c.iv).2.1 cs

theorem runEncrypts_preserves_key (E : BlockFn) (calls : List EncCall) :
    ∀ (db : DBState) (c : String) (s : List Char),
      lookupConvKey db c = some s → s ≠ [] →
      lookupConvKey (runEncrypts E db calls) c = some s := by
  induction calls with
  | nil => intro db c s hs _; exact hs
  | cons call rest ih =>
    intro db c s hs hne
    exact ih _ c s
      (encryptAction_preserves_key E db call.user call.convId call.message
        call.freshKey call.iv c s hs hne) hne

/-- C4: for a conversation whose `session_key_encrypted` is empty, the
first encrypt call succeeds, generating the fresh 32-byte key and
persisting it hex-encoded; after that, any sequence of further encrypt
calls leaves the persisted key unchanged, and every subsequent encrypt
on that conversation reuses exactly the persisted key, never writing the
conversation table. -/
theorem encryptAction_session_key_lifecycle (E : BlockFn) (db : DBState)
    (user convId : String) (message freshKey iv : List Nat)
    (hempty : lookupConvKey db convId = some [])
    (hfk32 : freshKey.length = 32) (hfkb : ∀ b ∈ freshKey, b < 256) :
    (∃ r, (encryptAction E db user convId message freshKey iv).1 = Except.ok r) ∧
    lookupConvKey (encryptAction E db user convId message freshKey iv).2.1 convId =
      some (uint8ArrayToHex freshKey) ∧
    (∀ calls : List EncCall,
      lookupConvKey
          (runEncrypts E (encryptAction E db user convId message freshKey iv).2.1 calls)
          convId =
        some (uint8ArrayToHex freshKey)) ∧
    (∀ (db2 : DBState) (u2 : String) (m2 fk2 iv2 : List Nat),
      lookupConvKey db2 convId = some (uint8ArrayToHex freshKey) →
        (∃ r, (encryptAction E db2 u2 convId m2 fk2 iv2).1 = Except.ok r) ∧
        Effect.sessionKeyUse freshKey ∈ (encryptAction E db2 u2 convId m2 fk2 iv2).2.2 ∧
        ∀ c v, Effect.convKeyWrite c v ∉ (encryptAction E db2 u2 convId m2 fk2 iv2).2.2) := by
  have hgen := encryptAction_generate E db user convId message freshKey iv
    (Or.inl hempty) hfk32
  have hhexne : uint8ArrayToHex freshKey ≠ [] := by
    intro h0
    have hlen := uint8ArrayToHex_length freshKey
    rw [h0, hfk32] at hlen
    simp at hlen
  have hpersist : lookupConvKey (encryptAction E db user convId message freshKey iv).2.1
      convId = some (uint8ArrayToHex freshKey) := by
    unfold lookupConvKey at hempty ⊢
    rw [hgen.2.1]
    unfold setConvKey
    simp only
    exact lookup_map_set_self _ _ _ _ hempty
  refine ⟨⟨_, hgen.1⟩, hpersist, ?_, ?_⟩
  · intro calls
    exact runEncrypts_preserves_key E calls _ convId _ hpersist hhexne
  · intro db2 u2 m2 fk2 iv2 hl2
    have hreuse := encryptAction_reuse E db2 u2 convId m2 fk2 iv2 freshKey hl2 hfk32 hfkb
    refine ⟨⟨_, hreuse.1⟩, ?_, ?_⟩
    · rw [hreuse.2.2]
      simp
    · intro c v hmem
      rw [hreuse.2.2] at hmem
      simp at hmem

/-- Witness for the session-key lifecycle at a concrete store state. -/
theorem encryptAction_session_key_lifecycle_witness :
    (∃ r, (encryptAction constBlock ⟨[("c1", [])], [("c1", "u1")], []⟩ ("u1") ("c1") [104]
        (List.replicate 32 5) (List.replicate 12 0)).1 = Except.ok r) ∧
    lookupConvKey (encryptAction constBlock ⟨[("c1", [])], [("c1", "u1")], []⟩ ("u1") ("c1") [104]
        (List.replicate 32 5) (List.replicate 12 0)).2.1 ("c1") =
      some (uint8ArrayToHex (List.replicate 32 5)) ∧
    (∀ calls : List EncCall,
      lookupConvKey
          (runEncrypts constBlock
            (encryptAction constBlock ⟨[("c1", [])], [("c1", "u1")], []⟩ ("u1") ("c1") [104]
              (List.replicate 32 5) (List.replicate 12 0)).2.1 calls)
          "c1" =
        some (uint8ArrayToHex (List.replicate 32 5))) ∧
    (∀ (db2 : DBState) (u2 : String) (m2 fk2 iv2 : List Nat),
      lookupConvKey db2 ("c1") = some (uint8ArrayToHex (List.replicate 32 5)) →
        (∃ r, (encryptAction constBlock db2 u2 ("c1") m2 fk2 iv2).1 = Except.ok r) ∧
        Effect.sessionKeyUse (List.replicate 32 5) ∈
          (encryptAction constBlock db2 u2 ("c1") m2 fk2 iv2).2.2 ∧
        ∀ c v, Effect.convKeyWrite c v ∉ (encryptAction constBlock db2 u2 ("c1") m2 fk2 iv2).2.2) :=
  encryptAction_session_key_lifecycle constBlock ⟨[("c1", [])], [("c1", "u1")], []⟩
    "u1" "c1" [104] (List.replicate 32 5) (List.replicate 12 0) rfl rfl
    (fun b hb => by
      have hb5 : b = 5 := List.eq_of_mem_replicate hb
      omega)

end Server

namespace Client

/-! ### Outbound send path (src/unnamed/part_001, `useMessageSending`)

`sendMessage` tries client-side hybrid encryption, falls back to the
server-side encrypt endpoint on any failure, then persists with a
bounded retry loop.  Network/database outcomes and the client crypto
primitive are inputs of the model (`SendEnv`): the hybrid
`encryptMessage` of the client key hook is an arbitrary oracle, so every
theorem quantifies over all of its behaviours. -/

/-- An imported recipient public key (`importKey("spki", ...)` result). -/
structure PubKey where
  material : String
  deriving DecidableEq, Repr

structure MessageRow where
  id : String
  conversation_id : String
  sender_id : String
  content_encrypted : List Char
  iv : List Char
  created_at : String
  decrypted_content : Option String
  deriving DecidableEq, Repr

def failedFindRecipientMsg : String := "Failed to find recipient"

def pkRetrievalFailedMsg : String := "Public key retrieval failed"

def saveFailedMsg : String := "Failed to save message after multiple attempts"

def missingParamsMsg : String := "Missing required parameters for sending message"

def timedOutMsg : String :=
  "Message sending timed out. Please check your connection and try again."

def failedEncryptMsg : String := "Failed to encrypt message. Please try again."

def failedSendMsg : String := "Failed to send message. Please try again."

/-- Does `sub` occur as a contiguous run inside `s`? -/
def includesChars (sub : List Char) : List Char → Bool
  | [] => sub.isEmpty
  | c :: rest => sub.isPrefixOf (c :: rest) || includesChars sub rest

/-- JS `String.prototype.includes`. -/
def jsIncludes (s sub : String) : Bool :=
  includesChars sub.toList s.toList

/-- The environment of one send: request fields, liveness, and the
outcomes of the collaborator calls the send performs. -/
structure SendEnv where
  conversationId : Option String
  user : Option String
  mounted : Bool
  participantsQuery : Except String (List String)
  publicKeyQuery : Except String (Option String)
  importOk : String → Bool
  clientEncrypt : String → PubKey → Except String (List Char × List Char)
  serverInvoke : Except String (List Char × List Char)
  insertResults : Nat → Except String (String × String)

/-- `getRecipientUserId` (part_001 lines 23-35): the first other
participant, or the lookup error. -/
def getRecipientUserId (queryResult : Except String (List String)) :
    Except String String :=
  match queryResult with
  | Except.error _ => Except.error failedFindRecipientMsg
  | Except.ok [] => Except.error failedFindRecipientMsg
  | Except.ok (u :: _) => Except.ok u

/-- `fetchPublicKey` (src/src/utils/publicKeyManager.ts): query error,
missing row, null/empty `public_key`, or an import failure all collapse
into the one retrieval error its outer catch rethrows. -/
def fetchPublicKey (queryResult : Except String (Option String))
    (importOk : String → Bool) : Except String PubKey :=
  match queryResult with
  | Except.error _ => Except.error pkRetrievalFailedMsg
  | Except.ok none => Except.error pkRetrievalFailedMsg
  | Except.ok (some m) =>
    if m = "" then Except.error pkRetrievalFailedMsg
    else if importOk m then Except.ok ⟨m⟩
    else Except.error pkRetrievalFailedMsg

/-- `encryptMessageServerSide` (part_001 lines 38-57). -/
def encryptMessageServerSide (invokeResult : Except String (List Char × List Char)) :
    Except String (List Char × List Char) :=
  match invokeResult with
  | Except.error e => Except.error ("Server-side encryption failed: " ++ e)
  | Except.ok d => Except.ok d

/-- The client-side E2EE attempt inside `sendMessage`'s inner `try`
(part_001 lines 71-82): recipient lookup, public-key fetch, hybrid
encryption. -/
def clientPath (env : SendEnv) (content : String) :
    Except String (List Char × List Char) := do
  let _rid ← getRecipientUserId env.participantsQuery
  let pk ← fetchPublicKey env.publicKeyQuery env.importOk
  env.clientEncrypt content pk

inductive SendEvent where
  | attempt (n : Nat) (payload : List Char × List Char)
  | sleep (ms : Nat)
  deriving DecidableEq, Repr

def isAttemptEv : SendEvent → Bool
  | SendEvent.attempt _ _ => true
  | _ => false

/-- The persistence retry loop (part_001 lines 97-130 and
useRealTimeMessages.ts lines 339-372; the two revisions contain the same
loop): `retryCount` starts at 0 with `maxRetries = 2`; each failure
increments it, throws once it exceeds 2, and otherwise sleeps 1000 ms
before the next attempt. -/
def persistGo (ins : Nat → Except String (String × String))
    (payload : List Char × List Char) (retryCount : Nat) :
    Except String (String × String) × List SendEvent :=
  match ins retryCount with
  | Except.ok row => (Except.ok row, [SendEvent.attempt retryCount payload])
  | Except.error _ =>
    if h : retryCount + 1 > 2 then
      (Except.error saveFailedMsg, [SendEvent.attempt retryCount payload])
    else
      let r := persistGo ins payload (retryCount + 1)
      (r.1, SendEvent.attempt retryCount payload :: SendEvent.sleep 1000 :: r.2)
  termination_by 3 - retryCount
  decreasing_by omega

/-- The outer catch of `sendMessage` (part_001 lines 145-155). -/
def mapSendError (e : String) : String :=
  if jsIncludes e ("timeout") then timedOutMsg
  else if jsIncludes e ("encrypt") then failedEncryptMsg
  else failedSendMsg

/-- `sendMessage` (part_001 lines 59-162).  The success value is the
inserted row (the store echoes the inserted fields, generating id and
timestamp) with `decrypted_content` set for the sender. -/
def jsTrimEmpty (s : String) : Bool :=
  s.toList.all Char.isWhitespace

def sendMessage (env : SendEnv) (content : String) :
    Except String MessageRow × List SendEvent :=
  match env.conversationId, env.user with
  | some convId, some userId =>
    if jsTrimEmpty content = true ∨ env.mounted = false then (Except.error missingParamsMsg, [])
    else
      let encPair :=
        match clientPath env content with
        | Except.ok p => Except.ok p
        | Except.error _ => encryptMessageServerSide env.serverInvoke
      match encPair with
      | Except.error e => (Except.error (mapSendError e), [])
      | Except.ok payload =>
        match persistGo env.insertResults payload 0 with
        | (Except.error e, tr) => (Except.error (mapSendError e), tr)
        | (Except.ok (rid, ts), tr) =>
          (Except.ok ⟨rid, convId, userId, payload.1, payload.2, ts, some content⟩, tr)
  | _, _ => (Except.error missingParamsMsg, [])

theorem clientPath_error_recip (env : SendEnv) (ct m : String)
    (h : getRecipientUserId env.participantsQuery = Except.error m) :
    clientPath env ct = Except.error m := by
  simp [clientPath, h, Bind.bind, Except.bind]

theorem clientPath_error_fetch (env : SendEnv) (ct m : String)
    (h : fetchPublicKey env.publicKeyQuery env.importOk = Except.error m) :
    ∃ e, clientPath env ct = Except.error e := by
  rcases hq : getRecipientUserId env.participantsQuery with e1 | u
  · exact ⟨e1, clientPath_error_recip env ct e1 hq⟩
  · exact ⟨m, by simp [clientPath, hq, h, Bind.bind, Except.bind]⟩

/-- C2: when the client-side encryption attempt fails (and the three
causes the spec names each make it fail -- second conjunct), the send
falls back to the server-side encrypt endpoint; if that endpoint and the
persistence succeed, the send completes successfully with the
server-produced ciphertext and IV as the stored payload. -/
theorem sendMessage_server_fallback (env : SendEnv)
    (content convId userId err rid ts : String) (payload : List Char × List Char)
    (hc : env.conversationId = some convId) (hu : env.user = some userId)
    (hm : env.mounted = true) (ht : jsTrimEmpty content = false)
    (hfail : clientPath env content = Except.error err)
    (hserver : env.serverInvoke = Except.ok payload)
    (hins : env.insertResults 0 = Except.ok (rid, ts)) :
    sendMessage env content =
      (Except.ok ⟨rid, convId, userId, payload.1, payload.2, ts, some content⟩,
        [SendEvent.attempt 0 payload]) ∧
    ∀ (env2 : SendEnv) (ct2 : String),
      ((∃ e, env2.participantsQuery = Except.error e) ∨
        env2.participantsQuery = Except.ok [] ∨
        (∃ e, env2.publicKeyQuery = Except.error e) ∨
        env2.publicKeyQuery = Except.ok none ∨
        env2.publicKeyQuery = Except.ok (some "")) →
      ∃ e2, clientPath env2 ct2 = Except.error e2 := by
  constructor
  · unfold sendMessage
    rw [hc, hu]
    dsimp only
    rw [if_neg (by simp [hm, ht])]
    rw [hfail]
    dsimp only
    rw [hserver]
    dsimp only [encryptMessageServerSide]
    rw [persistGo, hins]
  · intro env2 ct2 hcase
    rcases hcase with ⟨e, he⟩ | he | ⟨e, he⟩ | he | he
    · exact ⟨failedFindRecipientMsg,
        clientPath_error_recip env2 ct2 _ (by rw [he]; rfl)⟩
    · exact ⟨failedFindRecipientMsg,
        clientPath_error_recip env2 ct2 _ (by rw [he]; rfl)⟩
    · exact clientPath_error_fetch env2 ct2 pkRetrievalFailedMsg (by rw [he]; rfl)
    · exact clientPath_error_fetch env2 ct2 pkRetrievalFailedMsg (by rw [he]; rfl)
    · exact clientPath_error_fetch env2 ct2 pkRetrievalFailedMsg (by rw [he]; rfl)

/-- Witness for the fallback: a send whose recipient lookup fails on the
wire completes via the server-side payload. -/
theorem sendMessage_server_fallback_witness :
    sendMessage
        ⟨some ("c1"), some ("u1"), true, Except.error ("neterr"), Except.ok none,
          fun _ => true, fun _ _ => Except.error ("unused"),
          Except.ok ([Char.ofNat 97], [Char.ofNat 98]),
          fun _ => Except.ok ("m1", "t1")⟩ "hello" =
      (Except.ok ⟨"m1", "c1", "u1", [Char.ofNat 97], [Char.ofNat 98], "t1", some ("hello")⟩,
        [SendEvent.attempt 0 ([Char.ofNat 97], [Char.ofNat 98])]) ∧
    ∀ (env2 : SendEnv) (ct2 : String),
      ((∃ e, env2.participantsQuery = Except.error e) ∨
        env2.participantsQuery = Except.ok [] ∨
        (∃ e, env2.publicKeyQuery = Except.error e) ∨
        env2.publicKeyQuery = Except.ok none ∨
        env2.publicKeyQuery = Except.ok (some "")) →
      ∃ e2, clientPath env2 ct2 = Except.error e2 :=
  sendMessage_server_fallback _ "hello" "c1" "u1" failedFindRecipientMsg "m1" "t1"
    ([Char.ofNat 97], [Char.ofNat 98]) rfl rfl rfl (by decide) rfl rfl rfl

theorem persistGo_attempt_bound (ins : Nat → Except String (String × String))
    (p : List Char × List Char) :
    ∀ rc, (persistGo ins p rc).2.countP isAttemptEv ≤ 3 - rc ∨ 2 < rc := by
  intro rc
  by_cases hrc : 2 < rc
  · exact Or.inr hrc
  · left
    interval_cases rc
    · rcases h0 : ins 0 with e0 | r0
      · rw [persistGo, h0]
        dsimp only
        rw [dif_neg (by omega)]
        rcases h1 : ins 1 with e1 | r1
        · rw [persistGo, h1]
          dsimp only
          rw [dif_neg (by omega)]
          rcases h2 : ins 2 with e2 | r2
          · rw [persistGo, h2]
            dsimp only
            rw [dif_pos (by omega)]
            simp [List.countP_cons, isAttemptEv]
          · rw [persistGo, h2]
            simp [List.countP_cons, isAttemptEv]
        · rw [persistGo, h1]
          simp [List.countP_cons, isAttemptEv]
      · rw [persistGo, h0]
        simp [List.countP_cons, isAttemptEv]
    · rcases h1 : ins 1 with e1 | r1
      · rw [persistGo, h1]
        dsimp only
        rw [dif_neg (by omega)]
        rcases h2 : ins 2 with e2 | r2
        · rw [persistGo, h2]
          dsimp only
          rw [dif_pos (by omega)]
          simp [List.countP_cons, isAttemptEv]
        · rw [persistGo, h2]
          simp [List.countP_cons, isAttemptEv]
      · rw [persistGo, h1]
        simp [List.countP_cons, isAttemptEv]
    · rcases h2 : ins 2 with e2 | r2
      · rw [persistGo, h2]
        dsimp only
        rw [dif_pos (by omega)]
        simp [List.countP_cons, isAttemptEv]
      · rw [persistGo, h2]
        simp [List.countP_cons, isAttemptEv]

set_option maxRecDepth 8192 in
/-- C8: once encryption has produced a payload, persistence is attempted
at most three times (initial try plus two retries) with a fixed 1000 ms
sleep between attempts, and when all three fail the caller gets the
failed-send error, never a success. -/
theorem sendMessage_retry_exhaustion (env : SendEnv)
    (content convId userId : String) (payload : List Char × List Char)
    (hc : env.conversationId = some convId) (hu : env.user = some userId)
    (hm : env.mounted = true) (ht : jsTrimEmpty content = false)
    (hclient : clientPath env content = Except.ok payload)
    (e0 e1 e2 : String)
    (h0 : env.insertResults 0 = Except.error e0)
    (h1 : env.insertResults 1 = Except.error e1)
    (h2 : env.insertResults 2 = Except.error e2) :
    sendMessage env content =
      (Except.error failedSendMsg,
        [SendEvent.attempt 0 payload, SendEvent.sleep 1000,
          SendEvent.attempt 1 payload, SendEvent.sleep 1000,
          SendEvent.attempt 2 payload]) ∧
    ∀ (ins2 : Nat → Except String (String × String)) (p2 : List Char × List Char),
      (persistGo ins2 p2 0).2.countP isAttemptEv ≤ 3 := by
  have hp2 : persistGo env.insertResults payload 2 =
      (Except.error saveFailedMsg, [SendEvent.attempt 2 payload]) := by
    rw [persistGo, h2]
    dsimp only
    rw [dif_pos (by omega)]
  have hp1 : persistGo env.insertResults payload 1 =
      (Except.error saveFailedMsg,
        [SendEvent.attempt 1 payload, SendEvent.sleep 1000, SendEvent.attempt 2 payload]) := by
    rw [persistGo, h1]
    dsimp only
    rw [dif_neg (by omega), hp2]
  have hp0 : persistGo env.insertResults payload 0 =
      (Except.error saveFailedMsg,
        [SendEvent.attempt 0 payload, SendEvent.sleep 1000,
          SendEvent.attempt 1 payload, SendEvent.sleep 1000,
          SendEvent.attempt 2 payload]) := by
    rw [persistGo, h0]
    dsimp only
    rw [dif_neg (by omega), hp1]
  have hmap : mapSendError saveFailedMsg = failedSendMsg := by decide
  constructor
  · unfold sendMessage
    rw [hc, hu]
    dsimp only
    rw [if_neg (by simp [hm, ht])]
    rw [hclient]
    dsimp only
    rw [hp0]
    dsimp only
    rw [hmap]
  · intro ins2 p2
    rcases persistGo_attempt_bound ins2 p2 0 with h | h
    · omega
    · omega

/-- Witness for retry exhaustion: three failing inserts produce the
failed-send error and the 3-attempt, 2-sleep trace. -/
theorem sendMessage_retry_exhaustion_witness :
    sendMessage
        ⟨some ("c1"), some ("u1"), true, Except.ok [("u2")], Except.ok (some ("PK")),
          fun _ => true, fun _ _ => Except.ok ([Char.ofNat 120], [Char.ofNat 121]),
          Except.ok ([], []), fun _ => Except.error ("db down")⟩ "hello" =
      (Except.error failedSendMsg,
        [SendEvent.attempt 0 ([Char.ofNat 120], [Char.ofNat 121]), SendEvent.sleep 1000,
          SendEvent.attempt 1 ([Char.ofNat 120], [Char.ofNat 121]), SendEvent.sleep 1000,
          SendEvent.attempt 2 ([Char.ofNat 120], [Char.ofNat 121])]) ∧
    ∀ (ins2 : Nat → Except String (String × String)) (p2 : List Char × List Char),
      (persistGo ins2 p2 0).2.countP isAttemptEv ≤ 3 :=
  sendMessage_retry_exhaustion _ "hello" "c1" "u1" ([Char.ofNat 120], [Char.ofNat 121])
    rfl rfl rfl (by decide) rfl ("db down") ("db down") ("db down") rfl rfl rfl

/-! ### Password-based private-key protection (src/src/hooks/useE2ECrypto.ts)

`deriveKeyFromPassword` (lines 41-68) is PBKDF2 with SHA-256 and 100000
iterations over a random 16-byte salt; `encryptPrivateKey` /
`decryptPrivateKey` (lines 71-130) wrap the exported JWK under the
derived key with AES-GCM, packing `iv ‖ ciphertext` (split back at
12 bytes).  The two platform primitives are modelled ideally, which is
the contract the code relies on: the KDF as the pair (password, salt)
with derivation injective in the password, and the AEAD symbolically --
decryption succeeds exactly under the encrypting key and IV, as AES-GCM's
authentication tag guarantees except with negligible probability.  The
base64 packaging of `iv ‖ ciphertext` is a bijection and is represented
by the (iv, box) pair. -/

structure DerivedKey where
  password : String
  salt : List Nat
  deriving DecidableEq, Repr

/-- `deriveKeyFromPassword`: ideal PBKDF2. -/
def deriveKeyFromPassword (password : String) (salt : List Nat) : DerivedKey :=
  ⟨password, salt⟩

/-- A symbolic AES-GCM ciphertext: it can only be opened by the key and
IV under which it was produced. -/
inductive GCMBox where
  | mk (key : DerivedKey) (iv : List Nat) (pt : List Nat)
  deriving DecidableEq, Repr

def operationErrorMsg : String := "OperationError"

def subtleEncryptAEAD (k : DerivedKey) (iv pt : List Nat) : GCMBox :=
  GCMBox.mk k iv pt

def subtleDecryptAEAD (k : DerivedKey) (iv : List Nat) (b : GCMBox) :
    Except String (List Nat) :=
  match b with
  | GCMBox.mk k0 iv0 pt =>
    if k = k0 ∧ iv = iv0 then Except.ok pt else Except.error operationErrorMsg

/-- The stored `encryptedKey` blob: `iv ‖ ciphertext` (base64-packed in
the source, split back at byte 12). -/
structure WrappedKeyBlob where
  iv : List Nat
  data : GCMBox
  deriving DecidableEq, Repr

def privateKeyDecryptionFailedMsg : String := "Private key decryption failed"

/-- UTF-8 bytes of a string (`TextEncoder`). -/
def strBytes (s : String) : List Nat :=
  s.toUTF8.toList.map (fun b => b.toNat)

/-- `encryptPrivateKey` (lines 71-99): `salt` and `iv` stand for the two
`getRandomValues` draws; the private key is its exported JWK string.
Returns the blob and the salt, as the source returns
`{ encryptedKey, salt }`. -/
def encryptPrivateKey (privateKeyJWK password : String) (salt iv : List Nat) :
    WrappedKeyBlob × List Nat :=
  (⟨iv, subtleEncryptAEAD (deriveKeyFromPassword password salt) iv
      (strBytes privateKeyJWK)⟩, salt)

/-- `decryptPrivateKey` (lines 102-130): derive from the supplied
password and salt, split the blob, decrypt; any failure inside the `try`
is caught and rethrown as the single decryption-failed error.  On
success the recovered bytes are the JWK that `JSON.parse`/`importKey`
turn back into a key. -/
def decryptPrivateKey (encryptedKey : WrappedKeyBlob) (salt : List Nat)
    (password : String) : Except String (List Nat) :=
  match subtleDecryptAEAD (deriveKeyFromPassword password salt)
      encryptedKey.iv encryptedKey.data with
  | Except.error _ => Except.error privateKeyDecryptionFailedMsg
  | Except.ok bytes => Except.ok bytes

/-- C3: unwrapping a private key wrapped under `pw` with any other
password `pw2` always fails with the decryption-failed error and never
returns key material. -/
theorem decryptPrivateKey_wrong_password (privJWK pw pw2 : String)
    (salt iv : List Nat) (h : pw2 ≠ pw) :
    decryptPrivateKey (encryptPrivateKey privJWK pw salt iv).1 salt pw2 =
      Except.error privateKeyDecryptionFailedMsg := by
  unfold decryptPrivateKey encryptPrivateKey subtleDecryptAEAD subtleEncryptAEAD
    deriveKeyFromPassword
  dsimp only
  rw [if_neg (fun hk => h (congrArg DerivedKey.password hk.1))]

/-- Witness: wrapping under one password and unwrapping under another
fails. -/
theorem decryptPrivateKey_wrong_password_witness :
    decryptPrivateKey (encryptPrivateKey ("jwk") ("pw-a") [1] [2]).1 [1] ("pw-b") =
      Except.error privateKeyDecryptionFailedMsg :=
  decryptPrivateKey_wrong_password ("jwk") ("pw-a") ("pw-b") [1] [2] (by decide)

/-! ### Receive path (src/src/hooks/useMessageDecryption.ts)

`decryptClientMessage` catches every pipeline failure (base64 decode of
the stored fields, RSA unwrap of the 256-byte key prefix, AES-GCM body
decryption), so it is a total function into a message with a decrypted
content, a locked placeholder, or a failed placeholder.  The WebCrypto
session-key operations are oracle parameters: the theorems hold for
every behaviour of the platform crypto. -/

structure Msg where
  id : String
  content_encrypted : String
  iv : String
  sender_id : String
  created_at : String
  conversation_id : String
  decrypted_content : Option String
  deriving DecidableEq, Repr

def lockedPlaceholder : String := "🔒 Messages locked - unlock to decrypt"

def failedPlaceholder : String := "🔒 Failed to decrypt message"

structure RecvCtx where
  userPresent : Bool
  mounted : Bool
  sessionPrivateKey : Option String

/-- The platform crypto operations the pipeline suspends on. -/
structure CryptoOracle where
  rsaDecrypt : String → List Nat → Except String (List Nat)
  aesDecrypt : List Nat → List Nat → List Nat → Except String (List Nat)
  decodeText : List Nat → String

/-- The body of `decryptClientMessage`'s `try` (lines 31-68): base64
decode content and IV, split off the 256-byte RSA-wrapped AES key,
unwrap it, decrypt the body, decode the text. -/
def decryptPipeline (o : CryptoOracle) (sk : String) (message : Msg) :
    Except String String := do
  let encryptedData ← Server.base64ToUint8Array message.content_encrypted.toList
  let ivBytes ← Server.base64ToUint8Array message.iv.toList
  let encryptedAESKey := encryptedData.take 256
  let encryptedMessageData := encryptedData.drop 256
  let aesKeyBytes ← o.rsaDecrypt sk encryptedAESKey
  let decryptedData ← o.aesDecrypt aesKeyBytes ivBytes encryptedMessageData
  Except.ok (o.decodeText decryptedData)

/-- `decryptClientMessage` (lines 20-76). -/
def decryptClientMessage (ctx : RecvCtx) (o : CryptoOracle) (message : Msg) : Msg :=
  if ctx.userPresent = false ∨ ctx.mounted = false then message
  else
    match ctx.sessionPrivateKey with
    | none => { message with decrypted_content := some lockedPlaceholder }
    | some sk =>
      match decryptPipeline o sk message with
      | Except.ok plainText => { message with decrypted_content := some plainText }
      | Except.error _ => { message with decrypted_content := some failedPlaceholder }

inductive BatchEvent where
  | batch (size : Nat)
  | pause (ms : Nat)
  deriving DecidableEq, Repr

/-- The batch loop of `processBatchDecryption` (lines 90-135): slices of
3, each message decrypted with its own per-message failure handling, a
50 ms pause between batches. -/
def batchGo (ctx : RecvCtx) (o : CryptoOracle) : List Msg → List Msg × List BatchEvent
  | [] => ([], [])
  | m :: rest =>
    let batch := (m :: rest).take 3
    let remaining := (m :: rest).drop 3
    let dec := batch.map (decryptClientMessage ctx o)
    let r := batchGo ctx o remaining
    (dec ++ r.1,
      BatchEvent.batch batch.length ::
        (if remaining.isEmpty then r.2 else BatchEvent.pause 50 :: r.2))
  termination_by l => l.length
  decreasing_by simp; omega

/-- `processBatchDecryption` (lines 79-143) with its entry guards. -/
def processBatchDecryption (ctx : RecvCtx) (o : CryptoOracle)
    (isDecrypting : Bool) (messagesToDecrypt : List Msg) :
    List Msg × List BatchEvent :=
  if isDecrypting = true ∨ messagesToDecrypt.isEmpty ∨ ctx.mounted = false then
    (messagesToDecrypt, [])
  else batchGo ctx o messagesToDecrypt

/-- The expected event trace for `n` messages: full batches of 3 with a
50 ms pause between consecutive batches, a final partial batch. -/
def batchTrace (n : Nat) : List BatchEvent :=
  if n = 0 then []
  else if n ≤ 3 then [BatchEvent.batch n]
  else BatchEvent.batch 3 :: BatchEvent.pause 50 :: batchTrace (n - 3)
  termination_by n
  decreasing_by omega

theorem batchGo_fst_fuel (ctx : RecvCtx) (o : CryptoOracle) :
    ∀ (n : Nat) (l : List Msg), l.length ≤ n →
      (batchGo ctx o l).1 = l.map (decryptClientMessage ctx o) := by
  intro n
  induction n with
  | zero =>
    intro l hl
    have : l = [] := List.eq_nil_of_length_eq_zero (by omega)
    subst this
    rw [batchGo]
    rfl
  | succ n ih =>
    intro l hl
    match l with
    | [] =>
      rw [batchGo]
      rfl
    | m :: rest =>
      rw [batchGo]
      dsimp only
      rw [ih ((m :: rest).drop 3) (by rw [List.length_drop]; simp at hl ⊢; omega)]
      rw [← List.map_append, List.take_append_drop]

theorem batchGo_fst (ctx : RecvCtx) (o : CryptoOracle) (l : List Msg) :
    (batchGo ctx o l).1 = l.map (decryptClientMessage ctx o) :=
  batchGo_fst_fuel ctx o l.length l (Nat.le_refl _)

theorem batchGo_snd_fuel (ctx : RecvCtx) (o : CryptoOracle) :
    ∀ (n : Nat) (l : List Msg), l.length ≤ n →
      (batchGo ctx o l).2 = batchTrace l.length := by
  intro n
  induction n with
  | zero =>
    intro l hl
    have : l = [] := List.eq_nil_of_length_eq_zero (by omega)
    subst this
    rw [batchGo, batchTrace]
    rfl
  | succ n ih =>
    intro l hl
    match l with
    | [] =>
      rw [batchGo, batchTrace]
      rfl
    | m :: rest =>
      rw [batchGo]
      dsimp only
      by_cases hle : (m :: rest).length ≤ 3
      · have hrem : (m :: rest).drop 3 = [] := by
          rw [List.drop_eq_nil_iff]
          omega
        rw [hrem]
        rw [show batchGo ctx o [] = ([], []) from by rw [batchGo]]
        have htk : ((m :: rest).take 3).length = (m :: rest).length := by
          rw [List.length_take]
          omega
        rw [htk]
        rw [show batchTrace (m :: rest).length = [BatchEvent.batch (m :: rest).length] from by
          rw [batchTrace]
          rw [if_neg (by simp), if_pos hle]]
        rfl
      · have hemp : ((m :: rest).drop 3).isEmpty = false := by
          have hlen : ((m :: rest).drop 3).length = (m :: rest).length - 3 :=
            List.length_drop ..
          cases hd : (m :: rest).drop 3 with
          | nil =>
            rw [hd] at hlen
            simp only [List.length_nil] at hlen
            omega
          | cons a as => rfl
        rw [hemp, if_neg (by simp)]
        rw [ih ((m :: rest).drop 3) (by rw [List.length_drop]; simp at hl ⊢; omega)]
        rw [List.length_drop]
        have htk : ((m :: rest).take 3).length = 3 := by
          rw [List.length_take]
          omega
        rw [htk]
        rw [show batchTrace (m :: rest).length =
            BatchEvent.batch 3 :: BatchEvent.pause 50 ::
              batchTrace ((m :: rest).length - 3) from by
          rw [batchTrace]
          rw [if_neg (by omega), if_neg (by omega)]]

theorem batchGo_snd (ctx : RecvCtx) (o : CryptoOracle) (l : List Msg) :
    (batchGo ctx o l).2 = batchTrace l.length :=
  batchGo_snd_fuel ctx o l.length l (Nat.le_refl _)

/-- C5: with no unlocked session private key, the receive path marks a
message with the locked placeholder without invoking any decryption (the
result is the same for every crypto oracle), never throws while
processing a whole conversation (every message of any batch run comes
back locked), and the locked placeholder is distinct from the
decryption-failed placeholder. -/
theorem decryptClientMessage_locked_state (ctx : RecvCtx) (o : CryptoOracle)
    (msg : Msg) (hu : ctx.userPresent = true) (hm : ctx.mounted = true)
    (hk : ctx.sessionPrivateKey = none) :
    decryptClientMessage ctx o msg =
      { msg with decrypted_content := some lockedPlaceholder } ∧
    (∀ o2 : CryptoOracle, decryptClientMessage ctx o2 msg = decryptClientMessage ctx o msg) ∧
    ¬ lockedPlaceholder = failedPlaceholder ∧
    ∀ msgs : List Msg,
      (processBatchDecryption ctx o false msgs).1 =
        msgs.map (fun m => { m with decrypted_content := some lockedPlaceholder }) := by
  have hlock : ∀ (o2 : CryptoOracle) (m : Msg), decryptClientMessage ctx o2 m =
      { m with decrypted_content := some lockedPlaceholder } := by
    intro o2 m
    unfold decryptClientMessage
    rw [if_neg (by simp [hu, hm]), hk]
  refine ⟨hlock o msg, fun o2 => by rw [hlock o2, hlock o], by decide, ?_⟩
  intro msgs
  unfold processBatchDecryption
  by_cases hnil : msgs.isEmpty
  · rw [if_pos (Or.inr (Or.inl hnil))]
    rw [List.isEmpty_iff] at hnil
    subst hnil
    rfl
  · rw [if_neg (by simp [hnil, hm])]
    rw [batchGo_fst]
    exact List.map_congr_left (fun m _ => hlock o m)

/-- Witness for the locked state on a concrete message. -/
theorem decryptClientMessage_locked_state_witness :
    decryptClientMessage ⟨true, true, none⟩
        ⟨fun _ _ => Except.error ("x"), fun _ _ _ => Except.error ("x"), fun _ => ""⟩
        ⟨"m1", "ct", "iv", "s", "t", "c", none⟩ =
      { id := "m1", content_encrypted := "ct", iv := "iv", sender_id := "s",
        created_at := "t", conversation_id := "c",
        decrypted_content := some lockedPlaceholder } ∧
    (∀ o2 : CryptoOracle,
      decryptClientMessage ⟨true, true, none⟩ o2 ⟨"m1", "ct", "iv", "s", "t", "c", none⟩ =
        decryptClientMessage ⟨true, true, none⟩
          ⟨fun _ _ => Except.error ("x"), fun _ _ _ => Except.error ("x"), fun _ => ""⟩
          ⟨"m1", "ct", "iv", "s", "t", "c", none⟩) ∧
    ¬ lockedPlaceholder = failedPlaceholder ∧
    ∀ msgs : List Msg,
      (processBatchDecryption ⟨true, true, none⟩
          ⟨fun _ _ => Except.error ("x"), fun _ _ _ => Except.error ("x"), fun _ => ""⟩
          false msgs).1 =
        msgs.map (fun m => { m with decrypted_content := some lockedPlaceholder }) :=
  decryptClientMessage_locked_state ⟨true, true, none⟩
    ⟨fun _ _ => Except.error ("x"), fun _ _ _ => Except.error ("x"), fun _ => ""⟩
    ⟨"m1", "ct", "iv", "s", "t", "c", none⟩ rfl rfl rfl

/-- C9: the batch loop processes its input in batches of 3 with a 50 ms
pause between consecutive batches, returns exactly one output per input
in input order, and failures are per message: a message whose pipeline
fails becomes the failed placeholder while any message whose pipeline
succeeds carries its plaintext. -/
theorem processBatchDecryption_batching (ctx : RecvCtx) (o : CryptoOracle)
    (msgs : List Msg) (hu : ctx.userPresent = true) (hm : ctx.mounted = true) :
    (processBatchDecryption ctx o false msgs).1 =
      msgs.map (decryptClientMessage ctx o) ∧
    (processBatchDecryption ctx o false msgs).1.length = msgs.length ∧
    (processBatchDecryption ctx o false msgs).2 = batchTrace msgs.length ∧
    (∀ (sk : String) (m : Msg) (e : String), ctx.sessionPrivateKey = some sk →
      decryptPipeline o sk m = Except.error e →
      decryptClientMessage ctx o m =
        { m with decrypted_content := some failedPlaceholder }) ∧
    (∀ (sk : String) (m : Msg) (pt : String), ctx.sessionPrivateKey = some sk →
      decryptPipeline o sk m = Except.ok pt →
      decryptClientMessage ctx o m = { m with decrypted_content := some pt }) := by
  have hfst : (processBatchDecryption ctx o false msgs).1 =
      msgs.map (decryptClientMessage ctx o) := by
    unfold processBatchDecryption
    by_cases hnil : msgs.isEmpty
    · rw [if_pos (Or.inr (Or.inl hnil))]
      rw [List.isEmpty_iff] at hnil
      subst hnil
      rfl
    · rw [if_neg (by simp [hnil, hm])]
      exact batchGo_fst ctx o msgs
  have hsnd : (processBatchDecryption ctx o false msgs).2 = batchTrace msgs.length := by
    unfold processBatchDecryption
    by_cases hnil : msgs.isEmpty
    · rw [if_pos (Or.inr (Or.inl hnil))]
      rw [List.isEmpty_iff] at hnil
      subst hnil
      rw [batchTrace]
      rfl
    · rw [if_neg (by simp [hnil, hm])]
      exact batchGo_snd ctx o msgs
  refine ⟨hfst, by rw [hfst, List.length_map], hsnd, ?_, ?_⟩
  · intro sk m e hsk hp
    unfold decryptClientMessage
    rw [if_neg (by simp [hu, hm]), hsk]
    dsimp only
    rw [hp]
  · intro sk m pt hsk hp
    unfold decryptClientMessage
    rw [if_neg (by simp [hu, hm]), hsk]
    dsimp only
    rw [hp]

/-- Witness for the batching behaviour on a concrete four-message list
with an oracle that fails exactly on one message. -/
theorem processBatchDecryption_batching_witness :
    (processBatchDecryption ⟨true, true, some ("sk")⟩
        ⟨fun _ w => if w.length = 0 then Except.error ("bad") else Except.ok w,
          fun _ _ ct => Except.ok ct, fun _ => "pt"⟩ false
        [⟨"m1", "", "", "", "", "", none⟩, ⟨"m2", "", "", "", "", "", none⟩,
          ⟨"m3", "", "", "", "", "", none⟩, ⟨"m4", "", "", "", "", "", none⟩]).1 =
      [⟨"m1", "", "", "", "", "", none⟩, ⟨"m2", "", "", "", "", "", none⟩,
          ⟨"m3", "", "", "", "", "", none⟩, ⟨"m4", "", "", "", "", "", none⟩].map
        (decryptClientMessage ⟨true, true, some ("sk")⟩
          ⟨fun _ w => if w.length = 0 then Except.error ("bad") else Except.ok w,
            fun _ _ ct => Except.ok ct, fun _ => "pt"⟩) ∧
    (processBatchDecryption ⟨true, true, some ("sk")⟩
        ⟨fun _ w => if w.length = 0 then Except.error ("bad") else Except.ok w,
          fun _ _ ct => Except.ok ct, fun _ => "pt"⟩ false
        [⟨"m1", "", "", "", "", "", none⟩, ⟨"m2", "", "", "", "", "", none⟩,
          ⟨"m3", "", "", "", "", "", none⟩, ⟨"m4", "", "", "", "", "", none⟩]).1.length = 4 ∧
    (processBatchDecryption ⟨true, true, some ("sk")⟩
        ⟨fun _ w => if w.length = 0 then Except.error ("bad") else Except.ok w,
          fun _ _ ct => Except.ok ct, fun _ => "pt"⟩ false
        [⟨"m1", "", "", "", "", "", none⟩, ⟨"m2", "", "", "", "", "", none⟩,
          ⟨"m3", "", "", "", "", "", none⟩, ⟨"m4", "", "", "", "", "", none⟩]).2 =
      batchTrace 4 := by
  have h := processBatchDecryption_batching ⟨true, true, some ("sk")⟩
    ⟨fun _ w => if w.length = 0 then Except.error ("bad") else Except.ok w,
      fun _ _ ct => Except.ok ct, fun _ => "pt"⟩
    [⟨"m1", "", "", "", "", "", none⟩, ⟨"m2", "", "", "", "", "", none⟩,
      ⟨"m3", "", "", "", "", "", none⟩, ⟨"m4", "", "", "", "", "", none⟩] rfl rfl
  exact ⟨h.1, h.2.1, h.2.2.1⟩

end Client

end Chatter
